import Mathlib

/-!
Shallow embedding of the simple-config-loader crate (src/lib.rs): a layered
configuration loader that merges process environment variables, dotenv files,
hierarchical YAML files and encrypted secret variants into one config tree.
External collaborators (the dotenvy crate, the config crate's file parser and
environment source, the decryption primitive, serde deserialization) are
modelled by explicit outcomes carried in a `World`, following the behaviour
the specification and the source comments ascribe to them.
-/

namespace SimpleConfigLoader

/-- Weakly-typed configuration values held in the merged tree: strings,
numbers (modelled as integers), booleans and string sequences, matching the
value kinds the environment source of the config library can produce. -/
inductive ConfigValue where
  | str (s : String)
  | int (n : Int)
  | bool (b : Bool)
  | list (xs : List String)
deriving DecidableEq

/-- A process environment (or the parsed content of a dotenv file): an
ordered association list of variable names to values. -/
abbrev EnvMap := List (String × String)

/-- A structured configuration source or the merged tree: a partial map from
normalized dotted key paths to values. -/
abbrev Tree := String → Option ConfigValue

def emptyTree : Tree := fun _ => none

/-- First-match lookup of a variable in an environment. -/
def lookupVar : EnvMap → String → Option String
  | [], _ => none
  | (k, v) :: rest, key => if k = key then some v else lookupVar rest key

/-- The deployment environment enum of src/lib.rs (derives strum EnumString
with serialize_all = "lowercase"). -/
inductive Environment where
  | dev
  | stag
  | prod
deriving DecidableEq

/-- The FromStr instance strum derives for `Environment` with
serialize_all = "lowercase" and no ascii_case_insensitive attribute: the
input must equal one of the lowercase serializations exactly. -/
def Environment.fromStr? : String → Option Environment := fun s =>
  if s = "dev" then some .dev
  else if s = "stag" then some .stag
  else if s = "prod" then some .prod
  else none

/-- `env::var("ENV").unwrap_or_else(|_| "dev".into())` of src/lib.rs. -/
def envName (procEnv : EnvMap) : String := (lookupVar procEnv "ENV").getD "dev"

/-- Modelled from the spec (§4.3) and the source comment "dotenvy::from_path
does NOT override existing env vars": setting a dotenv pair into the process
environment is first-write-wins — a variable already present is untouched. -/
def setIfUnset (env : EnvMap) (kv : String × String) : EnvMap :=
  if (lookupVar env kv.1).isSome then env else env ++ [kv]

/-- One `dotenvy::from_path(..).ok()` call: a missing (or unreadable) file is
`none` and is silently skipped; a located file's pairs are folded in
first-write-wins. -/
def dotenvFromPath (env : EnvMap) : Option (List (String × String)) → EnvMap
  | none => env
  | some pairs => pairs.foldl setIfUnset env

/-- Why `decrypt_file` of the simple_encrypt crate can fail: the spec (§4.2)
conflates all of these into one non-fatal "treat the source as absent". -/
inductive DecryptError where
  | fileMissing
  | wrongKey
  | corrupted
deriving DecidableEq

/-- A decrypted structured-secrets byte buffer, described by what
`String::from_utf8` and the YAML parser make of it: either the bytes are not
valid UTF-8, or they are and parsing the text yields a tree or a parse
error. -/
inductive EncBuffer where
  | badUtf8
  | utf8 (parse : Except Unit Tree)

/-- All inputs `read_config_vars_from_all_sources` consumes, one field per
file role of the fixed naming convention.  File contents are given by their
parse outcomes (the file-format parsers are external collaborators); `none`
on an optional file means the file is missing; decryption outcomes are
`Except DecryptError`. -/
structure World where
  procEnv : EnvMap
  dotenvBase : Option (List (String × String)) := none
  dotenvLocal : Option (List (String × String)) := none
  dotenvEnv : Option (List (String × String)) := none
  dotenvDefault : Option (List (String × String)) := none
  encEnvSecretsDotenv : Except DecryptError (Except Unit (List (String × String))) := .error .fileMissing
  yamlDefault : Option (Except Unit Tree) := none
  yamlEnv : Option (Except Unit Tree) := none
  yamlEnvSecrets : Option (Except Unit Tree) := none
  encEnvSecretsYaml : Except DecryptError EncBuffer := .error .fileMissing
  encLocalSecretsYaml : Except DecryptError EncBuffer := .error .fileMissing
  yamlLocal : Option (Except Unit Tree) := none

/-- The four plain dotenv loads of src/lib.rs lines 53-57, in source order:
.env, local.env, {env}.env, default.env. -/
def plainDotenvEnv (w : World) : EnvMap :=
  dotenvFromPath
    (dotenvFromPath (dotenvFromPath (dotenvFromPath w.procEnv w.dotenvBase) w.dotenvLocal)
      w.dotenvEnv)
    w.dotenvDefault

/-- `env::var("SECRETS_ENCRYPTION_KEY").ok()`, read after the plain dotenv
files have been folded into the process environment. -/
def secretsKey (w : World) : Option String :=
  lookupVar (plainDotenvEnv w) "SECRETS_ENCRYPTION_KEY"

/-- The encrypted dotenv-secrets step of src/lib.rs lines 64-71: skipped when
no key is set or decryption fails; a decrypted buffer is fed to
`dotenvy::from_read(..)?`, whose parse error is propagated fatally. -/
def dotenvSecretsEnv (w : World) : Except Unit EnvMap :=
  match secretsKey w with
  | none => .ok (plainDotenvEnv w)
  | some _ =>
    match w.encEnvSecretsDotenv with
    | .error _ => .ok (plainDotenvEnv w)
    | .ok (.error _) => .error ()
    | .ok (.ok pairs) => .ok (pairs.foldl setIfUnset (plainDotenvEnv w))

/-- The environment-variable source settings of the config crate as
src/lib.rs configures them.  The only list separator the source ever
configures is the single comma character, so it is modelled as a
character. -/
structure EnvSource where
  pfx : Option String
  listSeparator : Option Char
  tryParsing : Bool
  listParseKeys : List String

/-- How src/lib.rs lines 118-133 build the environment source: the separator
is always "__"; only when the caller-supplied list_parse_keys is non-empty
are the list separator "," and try_parsing(true) enabled and the keys
registered. -/
def mkEnvSource (pfx : Option String) (listParseKeys : List String) : EnvSource :=
  let base : EnvSource := ⟨pfx, none, false, []⟩
  if listParseKeys.isEmpty then base
  else { base with listSeparator := some ',', tryParsing := true,
                   listParseKeys := listParseKeys }

/-- Replacing every occurrence of the fixed two-character segment separator
"__" by the nesting delimiter ".", scanning left to right without overlap
exactly as str::replace does. -/
def sepToDot : List Char → List Char
  | [] => []
  | '_' :: '_' :: rest => '.' :: sepToDot rest
  | c :: rest => c :: sepToDot rest

/-- Splitting a string on a separator character, keeping empty pieces,
exactly as str::split does. -/
def splitOnSep (sep : Char) : List Char → List (List Char)
  | [] => [[]]
  | c :: rest =>
    if c = sep then [] :: splitOnSep sep rest
    else
      match splitOnSep sep rest with
      | [] => [[c]]
      | g :: gs => (c :: g) :: gs

/-- Modelled from the spec (§4.4): the environment source binds a variable
name by stripping the optional caller prefix (with its "__" separator),
normalizing to lowercase, and replacing the "__" segment separator by the
nesting delimiter "."; names not carrying the prefix are ignored. -/
def envKeyOf (src : EnvSource) (name : String) : Option String :=
  let lname := name.toList.map Char.toLower
  match src.pfx with
  | none => some (String.mk (sepToDot lname))
  | some p =>
    let pat := (p.toList ++ ['_', '_']).map Char.toLower
    if pat.isPrefixOf lname then some (String.mk (sepToDot (lname.drop pat.length)))
    else none

/-- Rust's `str::parse::<i64>`: an optional sign followed by decimal digits,
within the 64-bit signed range. -/
def parseI64? (s : String) : Option Int :=
  let cs := s.toList
  let core : Option Int :=
    match cs with
    | [] => none
    | c :: rest =>
      let p := if c = '-' then (true, rest) else if c = '+' then (false, rest) else (false, cs)
      if p.2.isEmpty ∨ ¬ p.2.all Char.isDigit then none
      else
        let n : Nat := p.2.foldl (fun a d => a * 10 + (d.toNat - 48)) 0
        some (if p.1 then -(n : Int) else (n : Int))
  core.bind (fun v => if -(2 ^ 63) ≤ v ∧ v < 2 ^ 63 then some v else none)

/-- Modelled from the spec: with type-parsing enabled the environment source
parses a value as a boolean, then as a number (integers here; no claim
involves fractional numbers), otherwise keeps it a string. -/
def parseScalar (s : String) : ConfigValue :=
  if s = "true" then .bool true
  else if s = "false" then .bool false
  else
    match parseI64? s with
    | some n => .int n
    | none => .str s

/-- Modelled from the spec (§4.4): the value bound to a key by the
environment source.  Keys enumerated in ListParseKeys split on the list
separator into an ordered sequence of strings; with try_parsing enabled
every other value goes through scalar type-parsing; with it disabled the
raw string is kept. -/
def envValueOf (src : EnvSource) (key value : String) : ConfigValue :=
  if src.tryParsing then
    match src.listSeparator with
    | some sep =>
      if key ∈ src.listParseKeys then
        .list ((splitOnSep sep value.toList).map String.mk)
      else parseScalar value
    | none => parseScalar value
  else .str value

/-- The raw text of the last environment variable whose name binds to the
given key (map insertion while iterating the environment lets the last
writer win). -/
def rawEnvValue (src : EnvSource) (env : EnvMap) (key : String) : Option String :=
  (env.filterMap fun nv => if envKeyOf src nv.1 = some key then some nv.2 else none).getLast?

/-- Modelled from the spec (§4.4): collecting the process environment into a
structured source tree. -/
def envSourceCollect (src : EnvSource) (env : EnvMap) : Tree :=
  fun k => (rawEnvValue src env k).map (envValueOf src k)

/-- Merging one structured source over another, the higher (later-added)
source overriding the lower key-by-key. -/
def mergeTree (lower higher : Tree) : Tree :=
  fun k =>
    match higher k with
    | some v => some v
    | none => lower k

/-- `config::Config::builder()...build()`: fold the added sources in order,
each overriding everything before it. -/
def buildFromTrees (ts : List Tree) : Tree := ts.foldl mergeTree emptyTree

/-- An optional file source (`required(false)`): a missing file contributes
nothing, a located file contributes its parse outcome — a parse error is
fatal at build time. -/
def optFile : Option (Except Unit Tree) → Except Unit Tree
  | none => .ok emptyTree
  | some (.error e) => .error e
  | some (.ok t) => .ok t

/-- An encrypted structured-secrets source of src/lib.rs lines 94-107:
skipped entirely when no key is set; with a key, a failed decryption is
skipped, a decrypted buffer must be valid UTF-8 (`String::from_utf8(..)?`)
and its text must parse (fatal at build otherwise). -/
def encYamlTree (key : Option String) (buf : Except DecryptError EncBuffer) :
    Except Unit Tree :=
  match key with
  | none => .ok emptyTree
  | some _ =>
    match buf with
    | .error _ => .ok emptyTree
    | .ok .badUtf8 => .error ()
    | .ok (.utf8 p) =>
      match p with
      | .error e => .error e
      | .ok t => .ok t

/-- The structured sources of src/lib.rs lines 73-134 in the order they are
added to the builder: default.yaml, {env}.yaml, {env}-secrets.yaml, the
decrypted {env}-secrets.yaml.enc buffer, the decrypted
local-secrets.yaml.enc buffer, local.yaml, and finally the
environment-variable source collected from the post-dotenv environment. -/
def sourceTrees (pfx : Option String) (lpk : List String) (w : World) (env : EnvMap) :
    Except Unit (List Tree) := do
  let d ← optFile w.yamlDefault
  let e ← optFile w.yamlEnv
  let s ← optFile w.yamlEnvSecrets
  let k := secretsKey w
  let e1 ← encYamlTree k w.encEnvSecretsYaml
  let e2 ← encYamlTree k w.encLocalSecretsYaml
  let l ← optFile w.yamlLocal
  pure [d, e, s, e1, e2, l, envSourceCollect (mkEnvSource pfx lpk) env]

/-- Outcome of one initialization attempt: a panic (`expect`/`unwrap`), an
`Err` propagated out of the function, or the final process environment
together with the built tree. -/
inductive ReadResult where
  | panic
  | error
  | ok (finalEnv : EnvMap) (tree : Tree)

/-- The whole of `read_config_vars_from_all_sources` in src/lib.rs: resolve
the environment name (a bad name panics via `expect`), fold the dotenv chain
into the process environment, then build the structured tree from the fixed
source chain. -/
def read_config_vars_from_all_sources (pfx : Option String) (lpk : List String)
    (w : World) : ReadResult :=
  match Environment.fromStr? (envName w.procEnv) with
  | none => .panic
  | some _ =>
    match dotenvSecretsEnv w with
    | .error _ => .error
    | .ok env5 =>
      match sourceTrees pfx lpk w env5 with
      | .error _ => .error
      | .ok ts => .ok env5 (buildFromTrees ts)

/-- The process-wide `static CONFIG: OnceLock<config::Config>` together with
a count of how many times the builder closure has actually run. -/
structure InitState where
  config : Option Tree
  builds : Nat

/-- Outcome of a call that may panic instead of returning. -/
inductive LoadResult (α : Type) where
  | panic
  | ok (a : α)

/-- `pub fn init`: `CONFIG.get_or_init(|| read_config_vars_from_all_sources(
prefix, list_parse_keys).unwrap())` — an already-set cell is returned as is,
otherwise the builder runs once and its `Err` outcome panics via unwrap. -/
def init (pfx : Option String) (lpk : List String) (w : World) (s : InitState) :
    LoadResult InitState :=
  match s.config with
  | some _ => .ok s
  | none =>
    match read_config_vars_from_all_sources pfx lpk w with
    | .ok _ t => .ok ⟨some t, s.builds + 1⟩
    | _ => .panic

/-- `pub fn init_default`: the zero-argument initializer, calling the builder
with no prefix and no list-parse keys. -/
def init_default (w : World) (s : InitState) : LoadResult InitState :=
  init none [] w s

/-- Rust's `.clone()` on the stored tree: an equal, independent value. -/
def cloneTree (t : Tree) : Tree := t

/-- `LoadConfig::load`:
`CONFIG.get().unwrap().clone().try_deserialize().unwrap()` — panics when the
cell is empty, deserializes a clone of the stored tree otherwise, panicking
on a deserialization error; the cell itself is never written. -/
def LoadConfig.load {α : Type} (deser : Tree → Except Unit α) (s : InitState) :
    LoadResult α × InitState :=
  match s.config with
  | none => (.panic, s)
  | some t =>
    match deser (cloneTree t) with
    | .error _ => (.panic, s)
    | .ok a => (.ok a, s)

/-- Iterated `LoadConfig::load` calls, tracking the global state they leave
behind. -/
def loadSeq {α : Type} (deser : Tree → Except Unit α) (s : InitState) : Nat → InitState
  | 0 => s
  | n + 1 => (LoadConfig.load deser (loadSeq deser s n)).2

/-! Helper lemmas about the merge chain. -/

/-- Lookup across a chain of sources, preferring later (higher-precedence)
sources. -/
def lookupChain : List Tree → String → Option ConfigValue
  | [], _ => none
  | t :: ts, k =>
    match lookupChain ts k with
    | some v => some v
    | none => t k

/-! Concrete worlds used to witness the theorems below. -/

/-- A world whose default and local structured files both define key "a". -/
def w1 : World :=
  { procEnv := []
    yamlDefault := some (.ok fun k => if k = "a" then some (.str "low") else none)
    yamlLocal := some (.ok fun k => if k = "a" then some (.str "high") else none) }

/-- The source chain `read_config_vars_from_all_sources` builds for `w1`. -/
def wts1 : List Tree :=
  [fun k => if k = "a" then some (.str "low") else none, emptyTree, emptyTree, emptyTree,
   emptyTree, fun k => if k = "a" then some (.str "high") else none,
   envSourceCollect (mkEnvSource none []) []]

/-- A world where the variable X is pre-set in the process environment and
every dotenv source, including the decrypted secrets buffer, redefines it. -/
def w2 : World :=
  { procEnv := [("SECRETS_ENCRYPTION_KEY", "key1"), ("X", "keep")]
    dotenvBase := some [("X", "base")]
    dotenvLocal := some [("X", "locl")]
    dotenvEnv := some [("X", "envf")]
    dotenvDefault := some [("X", "dflt")]
    encEnvSecretsDotenv := .ok (.ok [("X", "sec")]) }

/-- The source chain `read_config_vars_from_all_sources` builds for `w2`. -/
def wts2 : List Tree :=
  [emptyTree, emptyTree, emptyTree, emptyTree, emptyTree, emptyTree,
   envSourceCollect (mkEnvSource none []) w2.procEnv]

/-- A world with no encryption key where every encrypted source would fail to
decrypt. -/
def w3 : World :=
  { procEnv := []
    encEnvSecretsDotenv := .error .wrongKey
    encEnvSecretsYaml := .error .corrupted
    encLocalSecretsYaml := .error .wrongKey }

/-- A world whose environment holds a list-parse variable and an ordinary
variable with the same comma-separated text. -/
def w5 : World := { procEnv := [("MY__LIST", "a,b,c"), ("OTHER", "a,b,c")] }

/-- The source chain `read_config_vars_from_all_sources` builds for `w5`. -/
def wts5 : List Tree :=
  [emptyTree, emptyTree, emptyTree, emptyTree, emptyTree, emptyTree,
   envSourceCollect (mkEnvSource none ["my.list"]) w5.procEnv]

/-- A minimal world: empty process environment, no files at all. -/
def w7 : World := { procEnv := [] }

/-- The source chain `read_config_vars_from_all_sources` builds for `w7`. -/
def wts7 : List Tree :=
  [emptyTree, emptyTree, emptyTree, emptyTree, emptyTree, emptyTree,
   envSourceCollect (mkEnvSource none []) []]

/-- A world with an encryption key whose decrypted dotenv-secrets buffer is
malformed. -/
def w8 : World :=
  { procEnv := [("SECRETS_ENCRYPTION_KEY", "key1")]
    encEnvSecretsDotenv := .ok (.error ()) }

/-- The same world with every encrypted source absent (file missing). -/
def noEnc (w : World) : World :=
  { w with encEnvSecretsDotenv := .error .fileMissing,
           encEnvSecretsYaml := .error .fileMissing,
           encLocalSecretsYaml := .error .fileMissing }

/-- An optional structured file that is either absent or parses cleanly. -/
def okOrAbsent : Option (Except Unit Tree) → Prop
  | some (.error _) => False
  | _ => True

theorem foldl_mergeTree (k : String) :
    ∀ (ts : List Tree) (acc : Tree),
      (ts.foldl mergeTree acc) k =
        match lookupChain ts k with
        | some v => some v
        | none => acc k := by
  intro ts
  induction ts with
  | nil => intro acc; rfl
  | cons t ts ih =>
    intro acc
    show (ts.foldl mergeTree (mergeTree acc t)) k = _
    rw [ih]
    cases h : lookupChain ts k with
    | some v => simp [lookupChain, h]
    | none =>
      cases ht : t k with
      | some v => simp [lookupChain, h, ht, mergeTree]
      | none => simp [lookupChain, h, ht, mergeTree]

theorem lookupChain_none (ts : List Tree) (k : String)
    (h : ∀ t ∈ ts, t k = none) : lookupChain ts k = none := by
  induction ts with
  | nil => rfl
  | cons t ts ih =>
    have ht : t k = none := h t (List.mem_cons_self t ts)
    have hrest : lookupChain ts k = none := ih fun u hu => h u (List.mem_cons_of_mem t hu)
    simp [lookupChain, hrest, ht]

theorem exists_index_of_mem {α : Type} (l : List α) (a : α) (h : a ∈ l) :
    ∃ i : Nat, l[i]? = some a := by
  induction l with
  | nil => cases h
  | cons b l ih =>
    rcases List.mem_cons.mp h with rfl | h2
    · exact ⟨0, by simp⟩
    · obtain ⟨i, hi⟩ := ih h2
      exact ⟨i + 1, by simpa using hi⟩

theorem lookupChain_last_with_key (k : String) :
    ∀ (ts : List Tree) (j : Nat) (t : Tree) (v : ConfigValue),
      ts[j]? = some t → t k = some v →
      (∀ i ti, j < i → ts[i]? = some ti → ti k = none) →
      lookupChain ts k = some v := by
  intro ts
  induction ts with
  | nil => intro j t v hj; simp at hj
  | cons t0 ts ih =>
    intro j t v hj hv hafter
    match j with
    | 0 =>
      have ht0 : t0 = t := by simpa using hj
      subst ht0
      have hnone : lookupChain ts k = none := by
        apply lookupChain_none
        intro u hu
        obtain ⟨i, hi⟩ := exists_index_of_mem ts u hu
        exact hafter (i + 1) u (Nat.succ_pos i) (by simpa using hi)
      simp [lookupChain, hnone, hv]
    | j' + 1 =>
      have hj' : ts[j']? = some t := by simpa using hj
      have hrec : lookupChain ts k = some v := by
        apply ih j' t v hj' hv
        intro i ti hi hti
        exact hafter (i + 1) ti (by omega) (by simpa using hti)
      simp [lookupChain, hrec]

theorem lookupChain_append_last (l : List Tree) (t : Tree) (k : String) (v : ConfigValue)
    (h : t k = some v) : lookupChain (l ++ [t]) k = some v := by
  induction l with
  | nil => simp [lookupChain, h]
  | cons t0 l ih => simp [lookupChain, ih]

/-! Helper lemmas about first-write-wins dotenv folding. -/

theorem lookupVar_append (l1 l2 : EnvMap) (k : String) :
    lookupVar (l1 ++ l2) k =
      match lookupVar l1 k with
      | some v => some v
      | none => lookupVar l2 k := by
  induction l1 with
  | nil => simp [lookupVar]
  | cons p l1 ih =>
    by_cases h : p.1 = k
    · simp [lookupVar, h]
    · simp [lookupVar, h, ih]

theorem lookupVar_setIfUnset_of_some (env : EnvMap) (p : String × String) (k : String)
    (v : String) (h : lookupVar env k = some v) :
    lookupVar (setIfUnset env p) k = some v := by
  unfold setIfUnset
  by_cases hc : (lookupVar env p.1).isSome
  · simp [hc, h]
  · simp only [hc, if_false, Bool.false_eq_true]
    rw [lookupVar_append, h]

theorem lookupVar_fold_of_some (ps : List (String × String)) :
    ∀ (env : EnvMap) (k v : String), lookupVar env k = some v →
      lookupVar (ps.foldl setIfUnset env) k = some v := by
  induction ps with
  | nil => intro env k v h; exact h
  | cons p ps ih =>
    intro env k v h
    exact ih (setIfUnset env p) k v (lookupVar_setIfUnset_of_some env p k v h)

theorem lookupVar_fold_of_none (ps : List (String × String)) :
    ∀ (env : EnvMap) (k : String), lookupVar env k = none →
      lookupVar (ps.foldl setIfUnset env) k = lookupVar ps k := by
  induction ps with
  | nil => intro env k h; exact h
  | cons p ps ih =>
    intro env k h
    by_cases hk : p.1 = k
    · have hunset : ¬ (lookupVar env p.1).isSome := by rw [hk, h]; simp
      have henv2 : lookupVar (setIfUnset env p) k = some p.2 := by
        unfold setIfUnset
        simp only [hunset, if_false, Bool.false_eq_true]
        rw [lookupVar_append, h]
        simp [lookupVar, hk]
      rw [List.foldl_cons, lookupVar_fold_of_some ps (setIfUnset env p) k p.2 henv2]
      simp [lookupVar, hk]
    · have henv2 : lookupVar (setIfUnset env p) k = none := by
        unfold setIfUnset
        by_cases hc : (lookupVar env p.1).isSome
        · simp [hc, h]
        · simp only [hc, if_false, Bool.false_eq_true]
          rw [lookupVar_append, h]
          simp [lookupVar, hk]
      rw [List.foldl_cons, ih (setIfUnset env p) k henv2]
      simp [lookupVar, hk]

theorem lookupVar_dotenvFromPath_of_some (env : EnvMap) (o : Option (List (String × String)))
    (k v : String) (h : lookupVar env k = some v) :
    lookupVar (dotenvFromPath env o) k = some v := by
  cases o with
  | none => exact h
  | some ps => exact lookupVar_fold_of_some ps env k v h

theorem lookupVar_dotenvFromPath_of_none (env : EnvMap) (o : Option (List (String × String)))
    (k : String) (h : lookupVar env k = none) :
    lookupVar (dotenvFromPath env o) k = lookupVar (o.getD []) k := by
  cases o with
  | none => simpa [dotenvFromPath, lookupVar]
  | some ps => exact lookupVar_fold_of_none ps env k h

/-! Inversion lemmas for the top-level pipeline. -/

theorem exceptBind_ok {ε α β : Type} (x : α) (f : α → Except ε β) :
    (Except.ok x >>= f) = f x := rfl

theorem exceptBind_error {ε α β : Type} (e : ε) (f : α → Except ε β) :
    ((Except.error e : Except ε α) >>= f) = Except.error e := rfl

theorem exceptPure {ε α : Type} (x : α) : (pure x : Except ε α) = Except.ok x := rfl

theorem read_ok_inv (pfx : Option String) (lpk : List String) (w : World)
    (envr : EnvMap) (tree : Tree)
    (h : read_config_vars_from_all_sources pfx lpk w = .ok envr tree) :
    dotenvSecretsEnv w = .ok envr ∧
      ∃ ts, sourceTrees pfx lpk w envr = .ok ts ∧ tree = buildFromTrees ts := by
  unfold read_config_vars_from_all_sources at h
  cases hE : Environment.fromStr? (envName w.procEnv) <;> simp only [hE] at h
  · cases h
  · cases hD : dotenvSecretsEnv w <;> simp only [hD] at h
    · cases h
    · rename_i env5
      cases hS : sourceTrees pfx lpk w env5 <;> simp only [hS] at h
      · cases h
      · rename_i ts
        cases h
        exact ⟨rfl, ts, hS, rfl⟩

theorem sourceTrees_ok_shape (pfx : Option String) (lpk : List String) (w : World)
    (env : EnvMap) (ts : List Tree) (h : sourceTrees pfx lpk w env = .ok ts) :
    ∃ a b c d e f, ts =
      [a, b, c, d, e, f, envSourceCollect (mkEnvSource pfx lpk) env] := by
  unfold sourceTrees at h
  cases h1 : optFile w.yamlDefault <;>
    simp only [h1, exceptBind_ok, exceptBind_error] at h
  · cases h
  · rename_i a
    cases h2 : optFile w.yamlEnv <;>
      simp only [h2, exceptBind_ok, exceptBind_error] at h
    · cases h
    · rename_i b
      cases h3 : optFile w.yamlEnvSecrets <;>
        simp only [h3, exceptBind_ok, exceptBind_error] at h
      · cases h
      · rename_i c
        cases h4 : encYamlTree (secretsKey w) w.encEnvSecretsYaml <;>
          simp only [h4, exceptBind_ok, exceptBind_error] at h
        · cases h
        · rename_i d
          cases h5 : encYamlTree (secretsKey w) w.encLocalSecretsYaml <;>
            simp only [h5, exceptBind_ok, exceptBind_error] at h
          · cases h
          · rename_i e
            cases h6 : optFile w.yamlLocal <;>
              simp only [h6, exceptBind_ok, exceptBind_error, exceptPure] at h
            · cases h
            · rename_i f
              cases h
              exact ⟨a, b, c, d, e, f, rfl⟩

/-! Lemmas about the dotenv phase and the secrets handling. -/

theorem plain_preserve (w : World) (k v : String)
    (h : lookupVar w.procEnv k = some v) :
    lookupVar (plainDotenvEnv w) k = some v := by
  unfold plainDotenvEnv
  exact lookupVar_dotenvFromPath_of_some _ _ _ _
    (lookupVar_dotenvFromPath_of_some _ _ _ _
      (lookupVar_dotenvFromPath_of_some _ _ _ _
        (lookupVar_dotenvFromPath_of_some _ _ _ _ h)))

theorem secrets_phase_preserve (w : World) (envr : EnvMap) (k v : String)
    (hD : dotenvSecretsEnv w = .ok envr)
    (h : lookupVar (plainDotenvEnv w) k = some v) :
    lookupVar envr k = some v := by
  unfold dotenvSecretsEnv at hD
  cases hk : secretsKey w <;> simp only [hk] at hD
  · cases hD
    exact h
  · rcases hb : w.encEnvSecretsDotenv with r | r <;> simp only [hb] at hD
    · cases hD
      exact h
    · rcases r with e | ps <;> simp only at hD
      · cases hD
      · cases hD
        exact lookupVar_fold_of_some ps _ k v h

theorem dotenvSecretsEnv_keyNone (w : World) (h : secretsKey w = none) :
    dotenvSecretsEnv w = .ok (plainDotenvEnv w) := by
  unfold dotenvSecretsEnv
  simp only [h]

theorem dotenvSecretsEnv_decryptError (w : World) (r : DecryptError)
    (h : w.encEnvSecretsDotenv = .error r) :
    dotenvSecretsEnv w = .ok (plainDotenvEnv w) := by
  unfold dotenvSecretsEnv
  cases hk : secretsKey w
  · rfl
  · simp only [h]

theorem encYamlTree_decryptError (key : Option String) (r : DecryptError) :
    encYamlTree key (.error r) = .ok emptyTree := by
  cases key <;> rfl

theorem encYamlTree_keyNone (buf : Except DecryptError EncBuffer) :
    encYamlTree none buf = .ok emptyTree := rfl

theorem optFile_okOrAbsent (o : Option (Except Unit Tree)) (h : okOrAbsent o) :
    ∃ t, optFile o = .ok t := by
  match o with
  | none => exact ⟨emptyTree, rfl⟩
  | some (.ok t) => exact ⟨t, rfl⟩
  | some (.error e) => cases h

theorem sourceTrees_encErrors (pfx : Option String) (lpk : List String) (w : World)
    (env : EnvMap) (r2 r3 : DecryptError)
    (h2 : w.encEnvSecretsYaml = .error r2) (h3 : w.encLocalSecretsYaml = .error r3) :
    sourceTrees pfx lpk w env = (do
      let d ← optFile w.yamlDefault
      let e ← optFile w.yamlEnv
      let s ← optFile w.yamlEnvSecrets
      let l ← optFile w.yamlLocal
      pure [d, e, s, emptyTree, emptyTree, l, envSourceCollect (mkEnvSource pfx lpk) env]) := by
  unfold sourceTrees
  simp only [h2, h3, encYamlTree_decryptError, exceptBind_ok]

theorem sourceTrees_keyNone (pfx : Option String) (lpk : List String) (w : World)
    (env : EnvMap) (hk : secretsKey w = none) :
    sourceTrees pfx lpk w env = (do
      let d ← optFile w.yamlDefault
      let e ← optFile w.yamlEnv
      let s ← optFile w.yamlEnvSecrets
      let l ← optFile w.yamlLocal
      pure [d, e, s, emptyTree, emptyTree, l, envSourceCollect (mkEnvSource pfx lpk) env]) := by
  unfold sourceTrees
  simp only [hk, encYamlTree_keyNone, exceptBind_ok]

theorem readConfig_eq_of_components (pfx : Option String) (lpk : List String)
    (w a : World)
    (h0 : envName w.procEnv = envName a.procEnv)
    (h1 : dotenvSecretsEnv w = dotenvSecretsEnv a)
    (h2 : ∀ env, sourceTrees pfx lpk w env = sourceTrees pfx lpk a env) :
    read_config_vars_from_all_sources pfx lpk w =
      read_config_vars_from_all_sources pfx lpk a := by
  unfold read_config_vars_from_all_sources
  rw [h0, h1]
  cases hE : Environment.fromStr? (envName a.procEnv) <;> simp only [hE]
  cases hD : dotenvSecretsEnv a <;> simp only [hD]
  rename_i env5
  rw [h2 env5]

theorem sourceTrees_error_of_part (pfx : Option String) (lpk : List String) (w : World)
    (env : EnvMap)
    (h : optFile w.yamlDefault = .error () ∨ optFile w.yamlEnv = .error () ∨
      optFile w.yamlEnvSecrets = .error () ∨
      encYamlTree (secretsKey w) w.encEnvSecretsYaml = .error () ∨
      encYamlTree (secretsKey w) w.encLocalSecretsYaml = .error () ∨
      optFile w.yamlLocal = .error ()) :
    sourceTrees pfx lpk w env = .error () := by
  unfold sourceTrees
  rcases h with h | h | h | h | h | h
  · simp only [h, exceptBind_error]
  · cases h1 : optFile w.yamlDefault <;>
      simp only [h1, h, exceptBind_ok, exceptBind_error]
  · cases h1 : optFile w.yamlDefault <;>
      cases h2 : optFile w.yamlEnv <;>
      simp only [h1, h2, h, exceptBind_ok, exceptBind_error]
  · cases h1 : optFile w.yamlDefault <;>
      cases h2 : optFile w.yamlEnv <;>
      cases h3 : optFile w.yamlEnvSecrets <;>
      simp only [h1, h2, h3, h, exceptBind_ok, exceptBind_error]
  · cases h1 : optFile w.yamlDefault <;>
      cases h2 : optFile w.yamlEnv <;>
      cases h3 : optFile w.yamlEnvSecrets <;>
      cases h4 : encYamlTree (secretsKey w) w.encEnvSecretsYaml <;>
      simp only [h1, h2, h3, h4, h, exceptBind_ok, exceptBind_error]
  · cases h1 : optFile w.yamlDefault <;>
      cases h2 : optFile w.yamlEnv <;>
      cases h3 : optFile w.yamlEnvSecrets <;>
      cases h4 : encYamlTree (secretsKey w) w.encEnvSecretsYaml <;>
      cases h5 : encYamlTree (secretsKey w) w.encLocalSecretsYaml <;>
      simp only [h1, h2, h3, h4, h5, h, exceptBind_ok, exceptBind_error]

theorem buildFromTrees_last (l : List Tree) (t : Tree) (k : String) (v : ConfigValue)
    (h : t k = some v) : buildFromTrees (l ++ [t]) k = some v := by
  unfold buildFromTrees
  rw [foldl_mergeTree, lookupChain_append_last l t k v h]

theorem split_abc : (splitOnSep ',' "a,b,c".toList).map String.mk = ["a", "b", "c"] := by
  decide

theorem parse_abc : parseScalar "a,b,c" = .str "a,b,c" := by decide

/-! The claim theorems. -/

/-- C1: in the structured tree built by read_config_vars_from_all_sources the
sources merge in the fixed order default hierarchical file, environment
hierarchical file, environment plaintext secrets file, decrypted environment
encrypted-secrets buffer, decrypted local encrypted-secrets buffer, local
hierarchical file, environment-variable source (the order `sourceTrees`
fixes); for a key present in two sources of this chain the final value is the
one from the later (higher-precedence) source holding it. -/
theorem later_source_wins
    (pfx : Option String) (lpk : List String) (w : World) (envr : EnvMap) (tree : Tree)
    (ts : List Tree) (i j : Nat) (ti tj : Tree) (vi vj : ConfigValue) (k : String)
    (hread : read_config_vars_from_all_sources pfx lpk w = .ok envr tree)
    (hts : sourceTrees pfx lpk w envr = .ok ts)
    (hij : i < j) (hi : ts[i]? = some ti) (hj : ts[j]? = some tj)
    (hvi : ti k = some vi) (hvj : tj k = some vj)
    (hafter : ∀ l tl, j < l → ts[l]? = some tl → tl k = none) :
    tree k = some vj := by
  obtain ⟨-, ts2, hts2, htree⟩ := read_ok_inv pfx lpk w envr tree hread
  rw [hts2] at hts
  cases hts
  rw [htree]
  unfold buildFromTrees
  rw [foldl_mergeTree]
  rw [lookupChain_last_with_key k _ j tj vj hj hvj hafter]

/-- C1 witness: in `w1` the default file maps "a" to "low" and the local file
maps it to "high"; the built tree resolves "a" to the local (later) value. -/
theorem later_source_wins_witness :
    read_config_vars_from_all_sources none [] w1 = .ok [] (buildFromTrees wts1) ∧
    buildFromTrees wts1 "a" = some (.str "high") := by
  have hread : read_config_vars_from_all_sources none [] w1 = .ok [] (buildFromTrees wts1) :=
    rfl
  have hts : sourceTrees none [] w1 [] = .ok wts1 := rfl
  refine ⟨hread, ?_⟩
  refine later_source_wins none [] w1 [] (buildFromTrees wts1) wts1 0 5
    (fun k => if k = "a" then some (.str "low") else none)
    (fun k => if k = "a" then some (.str "high") else none)
    (.str "low") (.str "high") "a" hread hts (by decide) rfl rfl rfl rfl ?_
  intro l tl hl htl
  by_cases h6 : l = 6
  · subst h6
    have he : tl = envSourceCollect (mkEnvSource none []) [] := by
      have hx : wts1[6]? = some (envSourceCollect (mkEnvSource none []) []) := rfl
      rw [hx] at htl
      exact (Option.some_inj.mp htl).symm
    rw [he]
    rfl
  · have h7 : wts1.length ≤ l := by
      have : wts1.length = 7 := rfl
      omega
    rw [List.getElem?_eq_none h7] at htl
    cases htl

/-- C4 counterexample: the string "DEV" matches the environment name dev
case-insensitively, yet strum's derived parser (exact lowercase match)
rejects it and initialization panics instead of selecting Dev. -/
theorem environment_parse_not_case_insensitive :
    "DEV".toList.map Char.toLower = "dev".toList ∧
    Environment.fromStr? "DEV" = none ∧
    read_config_vars_from_all_sources none [] { procEnv := [("ENV", "DEV")] } = .panic :=
  ⟨by decide, rfl, rfl⟩

/-- C4 (amended): the environment name is parsed case-sensitively, matching
exactly the lowercase serializations dev, stag, prod; when the variable is
unset the name defaults to dev; every other string (including other casings
of the three names) fails fatally. -/
theorem environment_parse_exact (w : World) (pfx : Option String) (lpk : List String)
    (s : String) :
    Environment.fromStr? "dev" = some .dev ∧
    Environment.fromStr? "stag" = some .stag ∧
    Environment.fromStr? "prod" = some .prod ∧
    (s ≠ "dev" → s ≠ "stag" → s ≠ "prod" → Environment.fromStr? s = none) ∧
    (lookupVar w.procEnv "ENV" = none → envName w.procEnv = "dev") ∧
    (Environment.fromStr? (envName w.procEnv) = none →
      read_config_vars_from_all_sources pfx lpk w = .panic) := by
  refine ⟨rfl, rfl, rfl, ?_, ?_, ?_⟩
  · intro h1 h2 h3
    simp [Environment.fromStr?, h1, h2, h3]
  · intro h
    simp [envName, h]
  · intro h
    unfold read_config_vars_from_all_sources
    simp only [h]

/-- C4 witness: "qa" is rejected and a process whose ENV is "qa" panics
during initialization. -/
theorem environment_parse_exact_witness :
    Environment.fromStr? "qa" = none ∧
    read_config_vars_from_all_sources none [] { procEnv := [("ENV", "qa")] } = .panic := by
  have h := environment_parse_exact { procEnv := [("ENV", "qa")] } none [] "qa"
  exact ⟨h.2.2.2.1 (by decide) (by decide) (by decide), h.2.2.2.2.2 rfl⟩

/-- C6: calling the typed accessor LoadConfig.load before the global tree is
initialized panics (the result kind `LoadResult` has no recoverable error
alternative, matching the unwrap in the source). -/
theorem load_before_init_panics (α : Type) (deser : Tree → Except Unit α) (b : Nat) :
    LoadConfig.load deser ⟨none, b⟩ = (LoadResult.panic, (⟨none, b⟩ : InitState)) := rfl

/-- C7: the global tree is built at most once; with the cell already set any
call to either initializer (with any arguments) is a no-op returning the
already-built state, and after the first successful build (which increments
the build count exactly once) every later call leaves state and count
untouched. -/
theorem init_at_most_once (pfx pfx2 : Option String) (lpk lpk2 : List String)
    (w w2 : World) (s : InitState) :
    (∀ c, s.config = some c → init pfx lpk w s = .ok s ∧ init_default w s = .ok s) ∧
    (s.config = none → ∀ envr t, read_config_vars_from_all_sources pfx lpk w = .ok envr t →
      init pfx lpk w s = .ok ⟨some t, s.builds + 1⟩ ∧
      init pfx2 lpk2 w2 ⟨some t, s.builds + 1⟩ = .ok ⟨some t, s.builds + 1⟩) := by
  constructor
  · intro c hc
    constructor
    · simp [init, hc]
    · simp [init_default, init, hc]
  · intro hnone envr t hr
    constructor
    · simp [init, hnone, hr]
    · simp [init]

/-- C7 witness: from an unset state one build happens, and a second call with
different arguments is a no-op on the resulting state. -/
theorem init_at_most_once_witness :
    init none [] w7 ⟨none, 0⟩ = .ok ⟨some (buildFromTrees wts7), 1⟩ ∧
    init (some "APP") ["x"] w1 ⟨some (buildFromTrees wts7), 1⟩ =
      .ok ⟨some (buildFromTrees wts7), 1⟩ := by
  have h := (init_at_most_once none (some "APP") [] ["x"] w7 w1 ⟨none, 0⟩).2 rfl
    [] (buildFromTrees wts7) rfl
  exact h

/-- C9 (implicit): the guard on list_parse_keys enables try_parsing for the
whole environment source, so with a non-empty key list every value of a
non-designated key is type-parsed (numerals become numbers), while with an
empty list every environment value stays the raw string. -/
theorem try_parsing_source_wide (pfx : Option String) (lpk : List String) (k raw : String) :
    (lpk = [] → envValueOf (mkEnvSource pfx lpk) k raw = .str raw) ∧
    (lpk ≠ [] → (mkEnvSource pfx lpk).tryParsing = true ∧
      (k ∉ lpk → envValueOf (mkEnvSource pfx lpk) k raw = parseScalar raw)) ∧
    parseScalar "42" = .int 42 := by
  refine ⟨?_, ?_, by decide⟩
  · intro h
    subst h
    rfl
  · intro h
    match lpk, h with
    | a :: l, _ =>
      refine ⟨rfl, ?_⟩
      intro hk
      simp [mkEnvSource, envValueOf, hk]

/-- C9 witness: with list key "a" present, the non-designated key "b" parses
"42" to the number 42; with no list keys the same text stays a string. -/
theorem try_parsing_source_wide_witness :
    envValueOf (mkEnvSource none ["a"]) "b" "42" = .int 42 ∧
    envValueOf (mkEnvSource none []) "b" "42" = .str "42" := by
  have h1 := try_parsing_source_wide none ["a"] "b" "42"
  have h2 := try_parsing_source_wide none [] "b" "42"
  exact ⟨((h1.2.1 (by simp)).2 (by simp)).trans h1.2.2, h2.1 rfl⟩

/-- C10 (implicit): LoadConfig.load deserializes from a clone of the stored
tree and never writes the global state; any sequence of load calls leaves the
state identical and every call observes the same tree. -/
theorem load_frame (α : Type) (deser : Tree → Except Unit α) (s : InitState)
    (n : Nat) (t : Tree) :
    (LoadConfig.load deser s).2 = s ∧
    loadSeq deser s n = s ∧
    LoadConfig.load deser (loadSeq deser s n) = LoadConfig.load deser s ∧
    cloneTree t = t := by
  have hstate : ∀ s' : InitState, (LoadConfig.load deser s').2 = s' := by
    intro s'
    obtain ⟨c, b⟩ := s'
    cases c with
    | none => rfl
    | some t0 =>
      rcases h : deser (cloneTree t0) with e | a <;> simp [LoadConfig.load, h]
  have hseq : loadSeq deser s n = s := by
    induction n with
    | zero => rfl
    | succ m ih =>
      show (LoadConfig.load deser (loadSeq deser s m)).2 = s
      rw [ih, hstate]
  exact ⟨hstate s, hseq, by rw [hseq], rfl⟩

/-- C2: a variable pre-set in the process environment is never changed by the
dotenv pass, even when every dotenv file and the decrypted secrets buffer
bind it; setting is first-write-wins, giving precedence process environment,
then the local file, then the environment file, then the default file, then
the decrypted secrets buffer (each later clause assumes the base .env file,
which loads right after the process environment, does not bind the key). -/
theorem dotenv_first_write_wins
    (pfx : Option String) (lpk : List String) (w : World) (envr : EnvMap)
    (tree : Tree) (k v : String)
    (hread : read_config_vars_from_all_sources pfx lpk w = .ok envr tree) :
    (lookupVar w.procEnv k = some v → lookupVar envr k = some v) ∧
    (lookupVar w.procEnv k = none → lookupVar (w.dotenvBase.getD []) k = none →
      lookupVar (w.dotenvLocal.getD []) k = some v → lookupVar envr k = some v) ∧
    (lookupVar w.procEnv k = none → lookupVar (w.dotenvBase.getD []) k = none →
      lookupVar (w.dotenvLocal.getD []) k = none →
      lookupVar (w.dotenvEnv.getD []) k = some v → lookupVar envr k = some v) ∧
    (lookupVar w.procEnv k = none → lookupVar (w.dotenvBase.getD []) k = none →
      lookupVar (w.dotenvLocal.getD []) k = none →
      lookupVar (w.dotenvEnv.getD []) k = none →
      lookupVar (w.dotenvDefault.getD []) k = some v → lookupVar envr k = some v) ∧
    (lookupVar w.procEnv k = none → lookupVar (w.dotenvBase.getD []) k = none →
      lookupVar (w.dotenvLocal.getD []) k = none →
      lookupVar (w.dotenvEnv.getD []) k = none →
      lookupVar (w.dotenvDefault.getD []) k = none →
      ∀ key ps, secretsKey w = some key → w.encEnvSecretsDotenv = .ok (.ok ps) →
        lookupVar ps k = some v → lookupVar envr k = some v) := by
  obtain ⟨hD, -⟩ := read_ok_inv pfx lpk w envr tree hread
  refine ⟨?_, ?_, ?_, ?_, ?_⟩
  · intro h
    exact secrets_phase_preserve w envr k v hD (plain_preserve w k v h)
  · intro h0 hb hl
    apply secrets_phase_preserve w envr k v hD
    unfold plainDotenvEnv
    have e1 : lookupVar (dotenvFromPath w.procEnv w.dotenvBase) k = none := by
      rw [lookupVar_dotenvFromPath_of_none _ _ _ h0]
      exact hb
    have e2 : lookupVar (dotenvFromPath (dotenvFromPath w.procEnv w.dotenvBase)
        w.dotenvLocal) k = some v := by
      rw [lookupVar_dotenvFromPath_of_none _ _ _ e1]
      exact hl
    exact lookupVar_dotenvFromPath_of_some _ _ _ _
      (lookupVar_dotenvFromPath_of_some _ _ _ _ e2)
  · intro h0 hb hl he
    apply secrets_phase_preserve w envr k v hD
    unfold plainDotenvEnv
    have e1 : lookupVar (dotenvFromPath w.procEnv w.dotenvBase) k = none := by
      rw [lookupVar_dotenvFromPath_of_none _ _ _ h0]
      exact hb
    have e2 : lookupVar (dotenvFromPath (dotenvFromPath w.procEnv w.dotenvBase)
        w.dotenvLocal) k = none := by
      rw [lookupVar_dotenvFromPath_of_none _ _ _ e1]
      exact hl
    have e3 : lookupVar (dotenvFromPath (dotenvFromPath (dotenvFromPath w.procEnv
        w.dotenvBase) w.dotenvLocal) w.dotenvEnv) k = some v := by
      rw [lookupVar_dotenvFromPath_of_none _ _ _ e2]
      exact he
    exact lookupVar_dotenvFromPath_of_some _ _ _ _ e3
  · intro h0 hb hl he hd
    apply secrets_phase_preserve w envr k v hD
    unfold plainDotenvEnv
    have e1 : lookupVar (dotenvFromPath w.procEnv w.dotenvBase) k = none := by
      rw [lookupVar_dotenvFromPath_of_none _ _ _ h0]
      exact hb
    have e2 : lookupVar (dotenvFromPath (dotenvFromPath w.procEnv w.dotenvBase)
        w.dotenvLocal) k = none := by
      rw [lookupVar_dotenvFromPath_of_none _ _ _ e1]
      exact hl
    have e3 : lookupVar (dotenvFromPath (dotenvFromPath (dotenvFromPath w.procEnv
        w.dotenvBase) w.dotenvLocal) w.dotenvEnv) k = none := by
      rw [lookupVar_dotenvFromPath_of_none _ _ _ e2]
      exact he
    rw [lookupVar_dotenvFromPath_of_none _ _ _ e3]
    exact hd
  · intro h0 hb hl he hd key ps hk hbuf hps
    have e4 : lookupVar (plainDotenvEnv w) k = none := by
      unfold plainDotenvEnv
      have e1 : lookupVar (dotenvFromPath w.procEnv w.dotenvBase) k = none := by
        rw [lookupVar_dotenvFromPath_of_none _ _ _ h0]
        exact hb
      have e2 : lookupVar (dotenvFromPath (dotenvFromPath w.procEnv w.dotenvBase)
          w.dotenvLocal) k = none := by
        rw [lookupVar_dotenvFromPath_of_none _ _ _ e1]
        exact hl
      have e3 : lookupVar (dotenvFromPath (dotenvFromPath (dotenvFromPath w.procEnv
          w.dotenvBase) w.dotenvLocal) w.dotenvEnv) k = none := by
        rw [lookupVar_dotenvFromPath_of_none _ _ _ e2]
        exact he
      rw [lookupVar_dotenvFromPath_of_none _ _ _ e3]
      exact hd
    unfold dotenvSecretsEnv at hD
    simp only [hk, hbuf] at hD
    cases hD
    rw [lookupVar_fold_of_none ps _ k e4]
    exact hps

/-- C2 witness: in `w2`, X is pre-set to "keep" and every dotenv source
redefines it, yet the final environment still maps X to "keep". -/
theorem dotenv_first_write_wins_witness :
    read_config_vars_from_all_sources none [] w2 = .ok w2.procEnv (buildFromTrees wts2) ∧
    lookupVar w2.procEnv "X" = some "keep" := by
  have hread : read_config_vars_from_all_sources none [] w2 =
      .ok w2.procEnv (buildFromTrees wts2) := rfl
  exact ⟨hread,
    (dotenv_first_write_wins none [] w2 w2.procEnv (buildFromTrees wts2) "X" "keep"
      hread).1 rfl⟩

/-- C3: with no symmetric secrets key every encrypted source is treated as
absent (the run is identical to one where the encrypted files are missing)
and, with the located plain sources well-formed and the environment name
valid, initialization succeeds; with a key present, decryption failure for
any reason on every encrypted source likewise behaves exactly as if those
files were missing, so it never fails the build. -/
theorem enc_sources_nonfatal (pfx : Option String) (lpk : List String) (w : World)
    (r1 r2 r3 : DecryptError) :
    read_config_vars_from_all_sources pfx lpk
        { w with encEnvSecretsDotenv := .error r1, encEnvSecretsYaml := .error r2,
                 encLocalSecretsYaml := .error r3 } =
      read_config_vars_from_all_sources pfx lpk (noEnc w) ∧
    (secretsKey w = none →
      read_config_vars_from_all_sources pfx lpk w =
        read_config_vars_from_all_sources pfx lpk (noEnc w)) ∧
    (secretsKey w = none → okOrAbsent w.yamlDefault → okOrAbsent w.yamlEnv →
      okOrAbsent w.yamlEnvSecrets → okOrAbsent w.yamlLocal →
      ∀ e, Environment.fromStr? (envName w.procEnv) = some e →
        ∃ envr tree, read_config_vars_from_all_sources pfx lpk w = .ok envr tree) := by
  refine ⟨?_, ?_, ?_⟩
  · apply readConfig_eq_of_components
    · rfl
    · exact (dotenvSecretsEnv_decryptError _ r1 rfl).trans
        (dotenvSecretsEnv_decryptError (noEnc w) .fileMissing rfl).symm
    · intro env
      exact (sourceTrees_encErrors pfx lpk _ env r2 r3 rfl rfl).trans
        (sourceTrees_encErrors pfx lpk (noEnc w) env .fileMissing .fileMissing rfl rfl).symm
  · intro hk
    apply readConfig_eq_of_components
    · rfl
    · exact (dotenvSecretsEnv_keyNone w hk).trans
        (dotenvSecretsEnv_decryptError (noEnc w) .fileMissing rfl).symm
    · intro env
      exact (sourceTrees_keyNone pfx lpk w env hk).trans
        (sourceTrees_encErrors pfx lpk (noEnc w) env .fileMissing .fileMissing rfl rfl).symm
  · intro hk o1 o2 o3 o4 e he
    obtain ⟨d, hd⟩ := optFile_okOrAbsent _ o1
    obtain ⟨e1, he1⟩ := optFile_okOrAbsent _ o2
    obtain ⟨s1, hs1⟩ := optFile_okOrAbsent _ o3
    obtain ⟨l1, hl1⟩ := optFile_okOrAbsent _ o4
    refine ⟨plainDotenvEnv w,
      buildFromTrees [d, e1, s1, emptyTree, emptyTree, l1,
        envSourceCollect (mkEnvSource pfx lpk) (plainDotenvEnv w)], ?_⟩
    unfold read_config_vars_from_all_sources
    simp only [he, dotenvSecretsEnv_keyNone w hk,
      sourceTrees_keyNone pfx lpk w (plainDotenvEnv w) hk, hd, he1, hs1, hl1,
      exceptBind_ok, exceptPure]

/-- C3 witness: in `w3` no key is set while every encrypted source would fail
to decrypt; the run equals the enc-less run and initialization succeeds. -/
theorem enc_sources_nonfatal_witness :
    read_config_vars_from_all_sources none [] w3 =
      read_config_vars_from_all_sources none [] (noEnc w3) ∧
    ∃ envr tree, read_config_vars_from_all_sources none [] w3 = .ok envr tree := by
  have h := enc_sources_nonfatal none [] w3 .wrongKey .corrupted .wrongKey
  exact ⟨h.2.1 rfl, h.2.2 rfl trivial trivial trivial trivial .dev rfl⟩

/-- C5: a key enumerated in the caller-supplied list-parse keys whose final
environment-variable binding is the text "a,b,c" resolves in the built tree
to the sequence ["a","b","c"], while the same text bound to a key not in the
list resolves to the single scalar string "a,b,c". -/
theorem list_parse_key_splits
    (pfx : Option String) (lpk : List String) (w : World) (envr : EnvMap)
    (tree : Tree) (k : String)
    (hread : read_config_vars_from_all_sources pfx lpk w = .ok envr tree)
    (hraw : rawEnvValue (mkEnvSource pfx lpk) envr k = some "a,b,c") :
    tree k = if k ∈ lpk then some (.list ["a", "b", "c"]) else some (.str "a,b,c") := by
  obtain ⟨-, ts, hts, htree⟩ := read_ok_inv pfx lpk w envr tree hread
  obtain ⟨a, b, c, d, e, f, rfl⟩ := sourceTrees_ok_shape pfx lpk w envr ts hts
  rw [htree]
  have hg : envSourceCollect (mkEnvSource pfx lpk) envr k =
      some (envValueOf (mkEnvSource pfx lpk) k "a,b,c") := by
    unfold envSourceCollect
    rw [hraw]
    rfl
  have hlast := buildFromTrees_last [a, b, c, d, e, f]
    (envSourceCollect (mkEnvSource pfx lpk) envr) k
    (envValueOf (mkEnvSource pfx lpk) k "a,b,c") hg
  have hlist : ([a, b, c, d, e, f] ++ [envSourceCollect (mkEnvSource pfx lpk) envr]) =
      [a, b, c, d, e, f, envSourceCollect (mkEnvSource pfx lpk) envr] := rfl
  rw [hlist] at hlast
  rw [hlast]
  by_cases hk : k ∈ lpk
  · rw [if_pos hk]
    rcases lpk with _ | ⟨a0, l0⟩
    · cases hk
    · have hv : envValueOf (mkEnvSource pfx (a0 :: l0)) k "a,b,c" =
          .list ((splitOnSep ',' "a,b,c".toList).map String.mk) := by
        simp [mkEnvSource, envValueOf, hk]
      rw [hv, split_abc]
  · rw [if_neg hk]
    rcases lpk with _ | ⟨a0, l0⟩
    · rfl
    · have hv : envValueOf (mkEnvSource pfx (a0 :: l0)) k "a,b,c" =
          parseScalar "a,b,c" := by
        simp [mkEnvSource, envValueOf, hk]
      rw [hv, parse_abc]

/-- C5 witness: in `w5` the variable MY__LIST (key "my.list", designated) and
OTHER (key "other", not designated) both carry "a,b,c"; the tree holds a
sequence for the former and the scalar string for the latter. -/
theorem list_parse_key_splits_witness :
    read_config_vars_from_all_sources none ["my.list"] w5 =
      .ok w5.procEnv (buildFromTrees wts5) ∧
    buildFromTrees wts5 "my.list" = some (.list ["a", "b", "c"]) ∧
    buildFromTrees wts5 "other" = some (.str "a,b,c") := by
  have hread : read_config_vars_from_all_sources none ["my.list"] w5 =
      .ok w5.procEnv (buildFromTrees wts5) := rfl
  refine ⟨hread, ?_, ?_⟩
  · have h := list_parse_key_splits none ["my.list"] w5 w5.procEnv
      (buildFromTrees wts5) "my.list" hread (by decide)
    simpa using h
  · have h := list_parse_key_splits none ["my.list"] w5 w5.procEnv
      (buildFromTrees wts5) "other" hread (by decide)
    simpa using h

/-- C8: malformed content in a source that was successfully located or
decrypted is fatal: a parse error in the decrypted dotenv-secrets buffer,
invalid UTF-8 or invalid structure in a decrypted structured-secrets buffer,
and invalid structure in any located structured file each abort
initialization with an error instead of being skipped. -/
theorem malformed_located_fatal (pfx : Option String) (lpk : List String) (w : World)
    (e : Environment) (key : String)
    (henv : Environment.fromStr? (envName w.procEnv) = some e) :
    (secretsKey w = some key → w.encEnvSecretsDotenv = .ok (.error ()) →
      read_config_vars_from_all_sources pfx lpk w = .error) ∧
    (secretsKey w = some key →
      (w.encEnvSecretsYaml = .ok .badUtf8 ∨ w.encEnvSecretsYaml = .ok (.utf8 (.error ())) ∨
       w.encLocalSecretsYaml = .ok .badUtf8 ∨
       w.encLocalSecretsYaml = .ok (.utf8 (.error ()))) →
      read_config_vars_from_all_sources pfx lpk w = .error) ∧
    ((w.yamlDefault = some (.error ()) ∨ w.yamlEnv = some (.error ()) ∨
      w.yamlEnvSecrets = some (.error ()) ∨ w.yamlLocal = some (.error ())) →
      read_config_vars_from_all_sources pfx lpk w = .error) := by
  refine ⟨?_, ?_, ?_⟩
  · intro hk hbuf
    have hD : dotenvSecretsEnv w = .error () := by
      unfold dotenvSecretsEnv
      simp only [hk, hbuf]
    unfold read_config_vars_from_all_sources
    simp only [henv, hD]
  · intro hk hdis
    have hS : ∀ env, sourceTrees pfx lpk w env = .error () := by
      intro env
      apply sourceTrees_error_of_part
      rcases hdis with h | h | h | h
      · exact .inr (.inr (.inr (.inl (by rw [hk, h]; rfl))))
      · exact .inr (.inr (.inr (.inl (by rw [hk, h]; rfl))))
      · exact .inr (.inr (.inr (.inr (.inl (by rw [hk, h]; rfl)))))
      · exact .inr (.inr (.inr (.inr (.inl (by rw [hk, h]; rfl)))))
    unfold read_config_vars_from_all_sources
    simp only [henv]
    cases hD : dotenvSecretsEnv w <;> simp only [hD]
    rename_i env5
    simp only [hS env5]
  · intro hdis
    have hS : ∀ env, sourceTrees pfx lpk w env = .error () := by
      intro env
      apply sourceTrees_error_of_part
      rcases hdis with h | h | h | h
      · exact .inl (by rw [h]; rfl)
      · exact .inr (.inl (by rw [h]; rfl))
      · exact .inr (.inr (.inl (by rw [h]; rfl)))
      · exact .inr (.inr (.inr (.inr (.inr (by rw [h]; rfl)))))
    unfold read_config_vars_from_all_sources
    simp only [henv]
    cases hD : dotenvSecretsEnv w <;> simp only [hD]
    rename_i env5
    simp only [hS env5]

/-- C8 witness: in `w8` the key is set and the decrypted dotenv-secrets
buffer is malformed, so initialization returns an error. -/
theorem malformed_located_fatal_witness :
    read_config_vars_from_all_sources none [] w8 = .error :=
  (malformed_located_fatal none [] w8 .dev "key1" rfl).1 rfl rfl

end SimpleConfigLoader
